import Mathlib

/-!
Shallow embedding of the map/pathing core of the MathInvasion repository
(src/js/game/systems/map.js): the grid of cell states, terrain registration,
the A* pathfinder with its path cache, and the speculative tower-placement
check.  Cell states follow the source encoding: 0 = empty, 1 = tower,
2 = obstacle, 3 = player base, 4 = enemy spawn; `getCellType` returns -1 as
the out-of-bounds sentinel.  The JS `Map` path cache (string keys
"sx,sy_ex,ey", injective on integer coordinates) is modelled as an
association list keyed by the coordinate 4-tuple; `console.error` emissions
of the registration operations are modelled as an `Option MapError` result
component.  The unbounded JS `while` loop of the A* search is modelled with
explicit fuel `gridWidth * gridHeight + 1`; each loop iteration moves one
coordinate from the open set into the closed set, open-set coordinates are
pairwise distinct and never in-bounds-exceeding except possibly the start
node, so this fuel is never exhausted.  The JS in-place stable sort
(`openSet.sort((a,b) => a.f - b.f)` followed by `shift`) is modelled by a
stable insertion sort; stability makes the result independent of the
particular stable algorithm.
-/

namespace MathInvasion

abbrev Coord := Int × Int

abbrev Path := List Coord

/-- Path cache: key (startX, startY, endX, endY), value `some p` for a cached
path and `none` for a cached "no path" (JS `null`) marker. -/
abbrev Cache := List ((Int × Int × Int × Int) × Option Path)

/-- Errors reported by the registration operations via `console.error`. -/
inductive MapError where
  | invalidCoordinate
deriving DecidableEq, Repr

/-- State of a `MapSystem` instance.  Rendering-only fields of the source
(`ctx`, `cellSize`, `worldWidth`, `worldHeight`, `colors`, `eventEmitter`)
are never read by the modelled operations and are omitted. -/
structure MapState where
  gridWidth : Nat
  gridHeight : Nat
  grid : List (List Nat)
  pathCache : Cache
  playerBase : Option Coord
  enemySpawns : List Coord
deriving DecidableEq, Repr

/-- The constructor: all cells initialise to 0 (empty), the cache is empty,
no base, no spawns. -/
def initMap (w h : Nat) : MapState :=
  { gridWidth := w
    gridHeight := h
    grid := List.replicate h (List.replicate w 0)
    pathCache := []
    playerBase := none
    enemySpawns := [] }

def isValidGridCoords (s : MapState) (x y : Int) : Bool :=
  decide (0 ≤ x) && decide (x < (s.gridWidth : Int)) &&
  decide (0 ≤ y) && decide (y < (s.gridHeight : Int))

/-- Unguarded array read `this.grid[y][x]`; in the source it only occurs
behind a bounds check. -/
def rawGetCell (g : List (List Nat)) (x y : Int) : Nat :=
  (g.getD y.toNat []).getD x.toNat 0

/-- Unguarded array write `this.grid[y][x] = v`; in the source it only occurs
behind a bounds check. -/
def rawSetCell (g : List (List Nat)) (x y : Int) (v : Nat) : List (List Nat) :=
  g.set y.toNat ((g.getD y.toNat []).set x.toNat v)

def getCellType (s : MapState) (x y : Int) : Int :=
  if isValidGridCoords s x y then (rawGetCell s.grid x y : Int) else -1

def invalidatePathCache (s : MapState) : MapState :=
  { s with pathCache := [] }

/-- `setCellType`: writes the cell and invalidates the path cache; silent
no-op on out-of-bounds coordinates.  The `mapChanged` event emission has no
effect on the modelled state. -/
def setCellType (s : MapState) (x y : Int) (t : Nat) : MapState :=
  if isValidGridCoords s x y then
    invalidatePathCache { s with grid := rawSetCell s.grid x y t }
  else s

def isCellPassable (s : MapState) (x y : Int) (forEnemies : Bool) : Bool :=
  if !isValidGridCoords s x y then false
  else
    let cellType := rawGetCell s.grid x y
    if forEnemies then cellType == 0 || cellType == 3 || cellType == 4
    else cellType == 0

/-- `setPlayerBase`: records the base and paints the cell, or reports
`console.error("Invalid coordinates for player base.")`, modelled as the
`some MapError.invalidCoordinate` result component. -/
def setPlayerBase (s : MapState) (x y : Int) : MapState × Option MapError :=
  if isValidGridCoords s x y then
    (setCellType { s with playerBase := some (x, y) } x y 3, none)
  else (s, some MapError.invalidCoordinate)

/-- `addEnemySpawn`: appends the spawn and paints the cell, or reports
`console.error("Invalid coordinates for enemy spawn.")`. -/
def addEnemySpawn (s : MapState) (x y : Int) : MapState × Option MapError :=
  if isValidGridCoords s x y then
    (setCellType { s with enemySpawns := s.enemySpawns ++ [(x, y)] } x y 4, none)
  else (s, some MapError.invalidCoordinate)

def addObstacle (s : MapState) (x y : Int) : MapState × Bool :=
  if isValidGridCoords s x y && rawGetCell s.grid x y == 0 then
    (setCellType s x y 2, true)
  else (s, false)

/-- Manhattan-distance heuristic of the source (`_heuristic`). -/
def manhattan (a b : Coord) : Nat :=
  (a.1 - b.1).natAbs + (a.2 - b.2).natAbs

/-- A* search node (`PathNode`): coordinate, parent back-reference (null at
the start node), cost-from-start g and heuristic h.  The source stores
f = g + h as a field that is recomputed on every update; it is modelled as
the derived `PNode.f`. -/
inductive PNode where
  | mk (x : Int) (y : Int) (parent : Option PNode) (g : Nat) (h : Nat)

def PNode.x : PNode → Int
  | .mk x _ _ _ _ => x

def PNode.y : PNode → Int
  | .mk _ y _ _ _ => y

def PNode.parent : PNode → Option PNode
  | .mk _ _ p _ _ => p

def PNode.g : PNode → Nat
  | .mk _ _ _ g _ => g

def PNode.h : PNode → Nat
  | .mk _ _ _ _ h => h

def PNode.f (n : PNode) : Nat := n.g + n.h

def PNode.pos (n : PNode) : Coord := (n.x, n.y)

/-- Path reconstruction: the source pushes coordinates while walking parent
references from the goal to the start and then reverses; this directly
builds the reversed (start-to-goal) list. -/
def PNode.chain : PNode → List Coord
  | .mk x y none _ _ => [(x, y)]
  | .mk x y (some p) _ _ => p.chain ++ [(x, y)]

/-- Stable insertion into an f-sorted list: an element moves past exactly the
elements with strictly smaller f, as the stable JS sort does. -/
def insertByF (n : PNode) : List PNode → List PNode
  | [] => [n]
  | m :: ms => if m.f < n.f then m :: insertByF n ms else n :: m :: ms

/-- Stable sort by f, modelling `openSet.sort((a, b) => a.f - b.f)`. -/
def sortByF : List PNode → List PNode
  | [] => []
  | n :: ns => insertByF n (sortByF ns)

/-- Replace the first list element satisfying the predicate, modelling the JS
in-place mutation of the node returned by `openSet.find`. -/
def updateFirst (p : PNode → Bool) (upd : PNode → PNode) : List PNode → List PNode
  | [] => []
  | n :: ns => if p n then upd n :: ns else n :: updateFirst p upd ns

/-- The four 4-directional neighbours, in source order: up, down, left,
right. -/
def neighborsOf (x y : Int) : List Coord :=
  [(x, y - 1), (x, y + 1), (x - 1, y), (x + 1, y)]

/-- One iteration of the source's neighbour loop body for one neighbour:
skip impassable or closed coordinates; otherwise insert a fresh node or relax
an existing open node when the new g-score is strictly smaller. -/
def relaxNbr (s : MapState) (ex ey : Int) (cur : PNode) (closed : List Coord)
    (openl : List PNode) (nb : Coord) : List PNode :=
  if !isCellPassable s nb.1 nb.2 true || decide (nb ∈ closed) then openl
  else
    match openl.find? (fun n => decide (n.x = nb.1 ∧ n.y = nb.2)) with
    | none =>
        openl ++ [PNode.mk nb.1 nb.2 (some cur) (cur.g + 1) (manhattan nb (ex, ey))]
    | some n =>
        if cur.g + 1 < n.g then
          updateFirst (fun m => decide (m.x = nb.1 ∧ m.y = nb.2))
            (fun m => PNode.mk m.x m.y (some cur) (cur.g + 1) m.h) openl
        else openl

/-- The full neighbour loop over the four neighbours of the current node. -/
def processNbrs (s : MapState) (ex ey : Int) (cur : PNode) (closed : List Coord)
    (openl : List PNode) : List PNode :=
  (neighborsOf cur.x cur.y).foldl (relaxNbr s ex ey cur closed) openl

/-- The A* `while` loop: sort the open set by f, extract the head, test the
goal, close the node and relax its neighbours.  Fuel replaces the unbounded
JS loop; see the header comment for why `gridWidth * gridHeight + 1` fuel is
never exhausted. -/
def astarLoop (s : MapState) (ex ey : Int) :
    Nat → List PNode → List Coord → Option Path
  | 0, _, _ => none
  | fuel + 1, openl, closed =>
    match sortByF openl with
    | [] => none
    | cur :: rest =>
      if cur.x = ex ∧ cur.y = ey then some cur.chain
      else
        astarLoop s ex ey fuel
          (processNbrs s ex ey cur ((cur.x, cur.y) :: closed) rest)
          ((cur.x, cur.y) :: closed)

/-- The A* search of `findPath` from enqueueing the start node onwards. -/
def astar (s : MapState) (sx sy ex ey : Int) : Option Path :=
  astarLoop s ex ey (s.gridWidth * s.gridHeight + 1)
    [PNode.mk sx sy none 0 (manhattan (sx, sy) (ex, ey))] []

def cacheGet (c : Cache) (k : Int × Int × Int × Int) : Option (Option Path) :=
  match c.find? (fun e => decide (e.1 = k)) with
  | some e => some e.2
  | none => none

def cacheSet (c : Cache) (k : Int × Int × Int × Int) (v : Option Path) : Cache :=
  match c with
  | [] => [(k, v)]
  | e :: es => if e.1 = k then (k, v) :: es else e :: cacheSet es k v

/-- Result of a `findPath` call: the returned path (or `none` for the JS
`null` no-path result), the state after the call, and whether the A* search
ran (`false` exactly when the cached entry was served). -/
structure FPResult where
  path : Option Path
  state : MapState
  computed : Bool
deriving DecidableEq, Repr

/-- `findPath(startX, startY, endX, endY, forceRecalculate)`: cache lookup
first unless bypassed; both a found path and the `null` no-path result are
written into the cache — including, as in the source, by bypassed calls. -/
def findPath (s : MapState) (sx sy ex ey : Int) (forceRecalculate : Bool) :
    FPResult :=
  let key := (sx, sy, ex, ey)
  match forceRecalculate, cacheGet s.pathCache key with
  | false, some v => { path := v, state := s, computed := false }
  | _, _ =>
    let r := astar s sx sy ex ey
    { path := r
      state := { s with pathCache := cacheSet s.pathCache key r }
      computed := true }

/-- The spawn loop of `canPlaceTower`: for each registered spawn compute a
cache-bypassed path to the base; break on the first failure (a `null` path or
an empty path). -/
def checkSpawns (s : MapState) (bx bv : Int) : List Coord → Bool × MapState
  | [] => (true, s)
  | (sx, sy) :: rest =>
    let r := findPath s sx sy bx bv true
    match r.path with
    | none => (false, r.state)
    | some p =>
      if p.length = 0 then (false, r.state)
      else checkSpawns r.state bx bv rest

/-- `canPlaceTower`: strict passability gate, speculative tower write, a
cache-bypassed spawn-to-base path check for every spawn, and the revert of
the speculative write on every exit path. -/
def canPlaceTower (s : MapState) (x y : Int) : Bool × MapState :=
  if !isCellPassable s x y false then (false, s)
  else
    let orig := rawGetCell s.grid x y
    let s1 : MapState := { s with grid := rawSetCell s.grid x y 1 }
    match s1.playerBase with
    | none => (false, { s1 with grid := rawSetCell s1.grid x y orig })
    | some (bx, bv) =>
      let r := checkSpawns s1 bx bv s1.enemySpawns
      (r.1, { r.2 with grid := rawSetCell r.2.grid x y orig })

/-- `placeTower`: re-runs `canPlaceTower`; on success commits via
`setCellType` (which clears the cache) and clears the cache once more. -/
def placeTower (s : MapState) (x y : Int) : MapState × Bool :=
  let r := canPlaceTower s x y
  if r.1 then (invalidatePathCache (setCellType r.2 x y 1), true)
  else (r.2, false)

/-- `removeTower`: succeeds only on an in-bounds tower cell. -/
def removeTower (s : MapState) (x y : Int) : MapState × Bool :=
  if isValidGridCoords s x y && rawGetCell s.grid x y == 1 then
    (invalidatePathCache (setCellType s x y 0), true)
  else (s, false)

/-- Iterated `canPlaceTower` at a fixed coordinate, discarding the returned
booleans, for the idempotence claim. -/
def iterCanPlace (x y : Int) : Nat → MapState → MapState
  | 0, s => s
  | n + 1, s => iterCanPlace x y n (canPlaceTower s x y).2

/-- The public mutation operations of the map system, for statements about
reachable states. -/
inductive MapOp where
  | registerBase (x y : Int)
  | registerSpawn (x y : Int)
  | registerObstacle (x y : Int)
  | placeTower (x y : Int)
  | removeTower (x y : Int)
  | setCellState (x y : Int) (t : Nat)
deriving DecidableEq, Repr

def applyOp (s : MapState) : MapOp → MapState
  | .registerBase x y => (setPlayerBase s x y).1
  | .registerSpawn x y => (addEnemySpawn s x y).1
  | .registerObstacle x y => (addObstacle s x y).1
  | .placeTower x y => (placeTower s x y).1
  | .removeTower x y => (removeTower s x y).1
  | .setCellState x y t => setCellType s x y t

def runOps (s : MapState) (ops : List MapOp) : MapState :=
  ops.foldl applyOp s

/-- Number of grid cells currently holding the Base state (3). -/
def baseCount (s : MapState) : Nat :=
  (s.grid.map (fun row => row.count 3)).sum

/-- The operations able to write the Base state (3) into a cell. -/
def isBaseWrite : MapOp → Bool
  | .registerBase _ _ => true
  | .setCellState _ _ t => t == 3
  | _ => false

/-- Well-formed grid shape, established by the constructor and preserved by
every mutation: `gridHeight` rows of `gridWidth` cells each. -/
def WFGrid (s : MapState) : Prop :=
  s.grid.length = s.gridHeight ∧ ∀ row ∈ s.grid, row.length = s.gridWidth

instance (s : MapState) : Decidable (WFGrid s) := by
  unfold WFGrid; infer_instance

/-- The x-first monotone lattice path from (sx, sy) to (ex, ey), used as the
exhibited shortest corridor in the empty-grid analysis of the A* search. -/
def pmono (sx sy ex ey : Int) (i : Nat) : Coord :=
  ((if i ≤ (ex - sx).natAbs then sx + (if sx ≤ ex then (i : Int) else -(i : Int))
    else ex),
   (if i ≤ (ex - sx).natAbs then sy
    else sy + (if sy ≤ ey then ((i - (ex - sx).natAbs : Nat) : Int)
               else -((i - (ex - sx).natAbs : Nat) : Int))))

/-- Loop invariant of the A* search on an all-empty grid: open-set nodes are
in bounds with distinct coordinates not yet closed, closed coordinates are
distinct and in bounds, stored heuristics are the true goal distances, g
dominates the start distance, reconstructed chains have length g + 1, some
monotone-corridor cell sits in the open set with optimal g while no later
corridor cell is closed, and the fuel plus the closed count covers the cell
count. -/
abbrev AInv (s : MapState) (sx sy ex ey : Int) (fuel : Nat)
    (openl : List PNode) (closed : List Coord) : Prop :=
  (∀ n ∈ openl, isValidGridCoords s n.x n.y = true) ∧
  (openl.map PNode.pos).Nodup ∧
  (∀ n ∈ openl, n.pos ∉ closed) ∧
  closed.Nodup ∧
  (∀ c ∈ closed, isValidGridCoords s c.1 c.2 = true) ∧
  (∀ n ∈ openl, n.h = manhattan n.pos (ex, ey)) ∧
  (∀ n ∈ openl, manhattan (sx, sy) n.pos ≤ n.g) ∧
  (∀ n ∈ openl, n.chain.length = n.g + 1) ∧
  (∃ i ≤ manhattan (sx, sy) (ex, ey),
    (∃ n ∈ openl, n.pos = pmono sx sy ex ey i ∧ n.g ≤ i) ∧
    ∀ j, i < j → j ≤ manhattan (sx, sy) (ex, ey) → pmono sx sy ex ey j ∉ closed) ∧
  (s.gridWidth * s.gridHeight + 1 ≤ fuel + closed.length)

/-- Grid state of the cache-pollution scenario: 3x3 grid, base registered at
(2,1), a single spawn registered at (0,1), everything else empty. -/
def pollutionState : MapState :=
  (addEnemySpawn (setPlayerBase (initMap 3 3) 2 1).1 0 1).1

/-- Grid state of the corridor scenario: `pollutionState` plus obstacles at
(1,0) and (1,2), leaving (1,1) as the sole spawn-to-base corridor. -/
def corridorState : MapState :=
  (addObstacle (addObstacle pollutionState 1 0).1 1 2).1

/-! ## List and cache helper lemmas -/

theorem list_set_getD {α : Type _} (l : List α) (i : Nat) (d : α) :
    l.set i (l.getD i d) = l := by
  induction l generalizing i with
  | nil => simp
  | cons a t ih =>
    cases i with
    | zero => simp
    | succ k =>
      simp only [List.getD_cons_succ, List.set_cons_succ, List.cons.injEq, true_and]
      exact ih k

theorem list_set_set_getD {α : Type _} (l : List α) (i : Nat) (v d : α) :
    (l.set i v).set i (l.getD i d) = l := by
  rw [List.set_set]; exact list_set_getD l i d

theorem list_getD_set_self {α : Type _} (l : List α) (i : Nat) (v d : α)
    (h : i < l.length) : (l.set i v).getD i d = v := by
  induction l generalizing i with
  | nil => simp at h
  | cons a t ih =>
    cases i with
    | zero => simp
    | succ k =>
      simp only [List.set_cons_succ, List.getD_cons_succ]
      exact ih k (by simp at h; omega)

theorem list_set_oob {α : Type _} (l : List α) (i : Nat) (v : α)
    (h : l.length ≤ i) : l.set i v = l := by
  induction l generalizing i with
  | nil => rfl
  | cons a t ih =>
    cases i with
    | zero => simp at h
    | succ k =>
      simp only [List.set_cons_succ, List.cons.injEq, true_and]
      exact ih k (by simp at h; omega)

theorem rawSetCell_cancel (g : List (List Nat)) (x y : Int) (v : Nat) :
    rawSetCell (rawSetCell g x y v) x y (rawGetCell g x y) = g := by
  unfold rawSetCell rawGetCell
  by_cases hy : y.toNat < g.length
  · rw [list_getD_set_self _ _ _ _ (by simpa using hy), list_set_set_getD,
      List.set_set, list_set_getD]
  · have h1 : g.length ≤ y.toNat := Nat.le_of_not_lt hy
    rw [list_set_oob _ _ _ h1, list_set_oob _ _ _ h1]

theorem rawGetCell_rawSetCell_self (g : List (List Nat)) (x y : Int) (v : Nat)
    (hy : y.toNat < g.length) (hx : x.toNat < (g.getD y.toNat []).length) :
    rawGetCell (rawSetCell g x y v) x y = v := by
  unfold rawGetCell rawSetCell
  rw [list_getD_set_self _ _ _ _ (by simpa using hy)]
  exact list_getD_set_self _ _ _ _ hx

theorem cacheGet_cacheSet_self (c : Cache) (k : Int × Int × Int × Int)
    (v : Option Path) : cacheGet (cacheSet c k v) k = some v := by
  induction c with
  | nil => simp [cacheSet, cacheGet, List.find?]
  | cons e es ih =>
    unfold cacheSet
    by_cases h : e.1 = k
    · simp [cacheGet, List.find?, h]
    · simpa [cacheGet, List.find?, h] using ih

/-! ## `findPath` plumbing lemmas -/

theorem findPath_hit (s : MapState) (sx sy ex ey : Int) {v : Option Path}
    (h : cacheGet s.pathCache (sx, sy, ex, ey) = some v) :
    findPath s sx sy ex ey false = { path := v, state := s, computed := false } := by
  simp [findPath, h]

theorem findPath_miss (s : MapState) (sx sy ex ey : Int)
    (h : cacheGet s.pathCache (sx, sy, ex, ey) = none) :
    findPath s sx sy ex ey false =
      ⟨astar s sx sy ex ey,
       { s with pathCache := cacheSet s.pathCache (sx, sy, ex, ey) (astar s sx sy ex ey) },
       true⟩ := by
  simp [findPath, h]

theorem findPath_force (s : MapState) (sx sy ex ey : Int) :
    findPath s sx sy ex ey true =
      ⟨astar s sx sy ex ey,
       { s with pathCache := cacheSet s.pathCache (sx, sy, ex, ey) (astar s sx sy ex ey) },
       true⟩ := by
  cases h : cacheGet s.pathCache (sx, sy, ex, ey) <;> simp [findPath, h]

theorem findPath_state_eq (s : MapState) (sx sy ex ey : Int) (b : Bool) :
    ∃ c, (findPath s sx sy ex ey b).state = { s with pathCache := c } := by
  cases b with
  | false =>
    cases h : cacheGet s.pathCache (sx, sy, ex, ey) with
    | none => exact ⟨_, by rw [findPath_miss s sx sy ex ey h]⟩
    | some v => exact ⟨s.pathCache, by rw [findPath_hit s sx sy ex ey h]⟩
  | true => exact ⟨_, by rw [findPath_force s sx sy ex ey]⟩

/-! ## Claim theorems: cache behaviour -/

/-- C9: calling `findPath` twice in succession with caching enabled and no
grid mutation in between returns the identical value the second time (path
or cached no-path alike), performs no search recomputation (the `computed`
flag of the second call is `false`: the cache entry is served), and leaves
the state unchanged. -/
theorem claim_C9_cache_hit_equivalence (s : MapState) (sx sy ex ey : Int) :
    (findPath (findPath s sx sy ex ey false).state sx sy ex ey false).path
      = (findPath s sx sy ex ey false).path ∧
    (findPath (findPath s sx sy ex ey false).state sx sy ex ey false).computed
      = false ∧
    (findPath (findPath s sx sy ex ey false).state sx sy ex ey false).state
      = (findPath s sx sy ex ey false).state := by
  cases h : cacheGet s.pathCache (sx, sy, ex, ey) with
  | some v =>
    rw [findPath_hit s sx sy ex ey h]
    rw [findPath_hit s sx sy ex ey h]
    exact ⟨rfl, rfl, rfl⟩
  | none =>
    rw [findPath_miss s sx sy ex ey h]
    rw [findPath_hit _ sx sy ex ey (by simpa using cacheGet_cacheSet_self s.pathCache _ _)]
    exact ⟨rfl, rfl, rfl⟩

/-- C10: `findPath` with start equal to goal returns the single-element path
`[(x, y)]` rather than no-path for every coordinate, including out-of-bounds
coordinates and occupied cells: the start node is enqueued and tested against
the goal before any passability or bounds check can reject it.  The
hypothesis only rules out a pre-existing cache entry intercepting a
non-bypassed call. -/
theorem claim_C10_self_path (s : MapState) (x y : Int) (b : Bool)
    (h : b = true ∨ cacheGet s.pathCache (x, y, x, y) = none) :
    (findPath s x y x y b).path = some [(x, y)] := by
  have hastar : astar s x y x y = some [(x, y)] := by
    unfold astar astarLoop
    simp [sortByF, insertByF, PNode.chain, PNode.x, PNode.y]
  rcases h with h | h
  · subst h; rw [findPath_force]; simpa using hastar
  · cases b with
    | false => rw [findPath_miss _ _ _ _ _ h]; simpa using hastar
    | true => rw [findPath_force]; simpa using hastar

/-- Witness for C10 at a concrete input: a 3x3 map and the out-of-bounds
coordinate (-5, 7) with caching enabled and an empty cache. -/
theorem claim_C10_witness :
    (false = true ∨ cacheGet (initMap 3 3).pathCache (-5, 7, -5, 7) = none) ∧
    (findPath (initMap 3 3) (-5) 7 (-5) 7 false).path = some [(-5, 7)] :=
  ⟨Or.inr rfl, claim_C10_self_path (initMap 3 3) (-5) 7 false (Or.inr rfl)⟩

/-! ## Passability and placement plumbing -/

theorem isCellPassable_valid (s : MapState) (x y : Int) (b : Bool)
    (h : isCellPassable s x y b = true) : isValidGridCoords s x y = true := by
  cases hv : isValidGridCoords s x y with
  | false => rw [isCellPassable, hv] at h; simp at h
  | true => rfl

theorem canPlaceTower_fst_true_passable (s : MapState) (x y : Int)
    (h : (canPlaceTower s x y).1 = true) : isCellPassable s x y false = true := by
  cases hp : isCellPassable s x y false with
  | false => rw [canPlaceTower, hp] at h; simp at h
  | true => rfl

theorem checkSpawns_frame (bx bv : Int) (l : List Coord) :
    ∀ s : MapState,
      (checkSpawns s bx bv l).2.gridWidth = s.gridWidth ∧
      (checkSpawns s bx bv l).2.gridHeight = s.gridHeight ∧
      (checkSpawns s bx bv l).2.grid = s.grid ∧
      (checkSpawns s bx bv l).2.playerBase = s.playerBase ∧
      (checkSpawns s bx bv l).2.enemySpawns = s.enemySpawns := by
  induction l with
  | nil => intro s; exact ⟨rfl, rfl, rfl, rfl, rfl⟩
  | cons sp rest ih =>
    intro s
    obtain ⟨sx, sy⟩ := sp
    rw [checkSpawns, findPath_force]
    cases hr : astar s sx sy bx bv with
    | none => simp [hr]
    | some p =>
      simp only [hr]
      by_cases hl : p.length = 0
      · rw [if_pos hl]; exact ⟨rfl, rfl, rfl, rfl, rfl⟩
      · rw [if_neg hl]
        exact ih { s with pathCache := cacheSet s.pathCache (sx, sy, bx, bv) (some p) }

theorem canPlaceTower_frame (s : MapState) (x y : Int) :
    (canPlaceTower s x y).2.gridWidth = s.gridWidth ∧
    (canPlaceTower s x y).2.gridHeight = s.gridHeight ∧
    (canPlaceTower s x y).2.grid = s.grid ∧
    (canPlaceTower s x y).2.playerBase = s.playerBase ∧
    (canPlaceTower s x y).2.enemySpawns = s.enemySpawns := by
  rw [canPlaceTower]
  cases hp : isCellPassable s x y false with
  | false => exact ⟨rfl, rfl, rfl, rfl, rfl⟩
  | true =>
    cases hb : s.playerBase with
    | none =>
      refine ⟨rfl, rfl, ?_, rfl, rfl⟩
      exact rawSetCell_cancel s.grid x y 1
    | some b =>
      obtain ⟨bx, bv⟩ := b
      obtain ⟨h1, h2, h3, h4, h5⟩ := checkSpawns_frame bx bv s.enemySpawns
        { s with grid := rawSetCell s.grid x y 1, playerBase := some (bx, bv) }
      refine ⟨h1, h2, ?_, h4, h5⟩
      have hg : rawSetCell (checkSpawns
            { s with grid := rawSetCell s.grid x y 1, playerBase := some (bx, bv) }
            bx bv s.enemySpawns).2.grid x y (rawGetCell s.grid x y) = s.grid := by
        rw [h3]; exact rawSetCell_cancel s.grid x y 1
      exact hg

theorem getCellType_of_frame {t s : MapState} (h1 : t.gridWidth = s.gridWidth)
    (h2 : t.gridHeight = s.gridHeight) (h3 : t.grid = s.grid) (cx cy : Int) :
    getCellType t cx cy = getCellType s cx cy := by
  unfold getCellType isValidGridCoords rawGetCell
  rw [h1, h2, h3]

/-! ## Claim theorems: frame effects and error handling -/

/-- C2: with a base registered, calling `canPlaceTower(x, y)` any number of
times leaves `getCellState` identical before and after every call, for every
cell: the speculative tower write is reverted on every exit path. -/
theorem claim_C2_canPlaceTower_preserves_cells (s : MapState) (x y : Int)
    (n : Nat) (hbase : s.playerBase.isSome = true) (cx cy : Int) :
    getCellType (iterCanPlace x y n s) cx cy = getCellType s cx cy := by
  induction n generalizing s with
  | zero => rfl
  | succ k ih =>
    obtain ⟨h1, h2, h3, h4, h5⟩ := canPlaceTower_frame s x y
    have hbase2 : (canPlaceTower s x y).2.playerBase.isSome = true := by
      rw [h4]; exact hbase
    calc getCellType (iterCanPlace x y (k + 1) s) cx cy
        = getCellType (iterCanPlace x y k (canPlaceTower s x y).2) cx cy := rfl
      _ = getCellType (canPlaceTower s x y).2 cx cy := ih _ hbase2
      _ = getCellType s cx cy := getCellType_of_frame h1 h2 h3 cx cy

/-- Witness for C2: two iterated `canPlaceTower(1,1)` calls on the 3x3
base-and-spawn state leave the probed cell state unchanged. -/
theorem claim_C2_witness :
    pollutionState.playerBase.isSome = true ∧
    getCellType (iterCanPlace 1 1 2 pollutionState) 1 1
      = getCellType pollutionState 1 1 :=
  ⟨by decide,
   claim_C2_canPlaceTower_preserves_cells pollutionState 1 1 2 (by decide) 1 1⟩

/-- C6: registering a base or a spawn at an out-of-bounds coordinate fails
with the invalid-coordinate error (the source's
`console.error("Invalid coordinates for ...")` branch, modelled as the
`some MapError.invalidCoordinate` result) and leaves the whole map state —
in particular every cell — unchanged. -/
theorem claim_C6_register_out_of_bounds (s : MapState) (x y : Int)
    (h : isValidGridCoords s x y = false) :
    setPlayerBase s x y = (s, some MapError.invalidCoordinate) ∧
    addEnemySpawn s x y = (s, some MapError.invalidCoordinate) := by
  constructor <;> simp [setPlayerBase, addEnemySpawn, h]

/-- Witness for C6: registering at (5, 0) on a 3x3 map fails and changes
nothing. -/
theorem claim_C6_witness :
    isValidGridCoords (initMap 3 3) 5 0 = false ∧
    setPlayerBase (initMap 3 3) 5 0 = (initMap 3 3, some MapError.invalidCoordinate) :=
  ⟨by decide, (claim_C6_register_out_of_bounds (initMap 3 3) 5 0 (by decide)).1⟩

/-- C4: after every committed in-bounds cell-state mutation — a raw
`setCellState`, a successful `registerObstacle`, `placeTower`, `removeTower`,
or an in-bounds `registerBase` / `registerSpawn` — the path cache is empty,
and on an empty cache the next non-bypassed `findPath` runs the search
(`computed = true`) instead of serving a stale entry. -/
theorem claim_C4_mutation_clears_cache (s : MapState) (x y : Int) (t : Nat) :
    (isValidGridCoords s x y = true → (setCellType s x y t).pathCache = []) ∧
    ((addObstacle s x y).2 = true → (addObstacle s x y).1.pathCache = []) ∧
    ((placeTower s x y).2 = true → (placeTower s x y).1.pathCache = []) ∧
    ((removeTower s x y).2 = true → (removeTower s x y).1.pathCache = []) ∧
    (isValidGridCoords s x y = true → (setPlayerBase s x y).1.pathCache = []) ∧
    (isValidGridCoords s x y = true → (addEnemySpawn s x y).1.pathCache = []) ∧
    (∀ sx sy ex ey : Int, s.pathCache = [] →
      (findPath s sx sy ex ey false).computed = true) := by
  refine ⟨?_, ?_, ?_, ?_, ?_, ?_, ?_⟩
  · intro h; simp [setCellType, h, invalidatePathCache]
  · intro h
    rw [addObstacle] at h ⊢
    by_cases hg : (isValidGridCoords s x y && rawGetCell s.grid x y == 0) = true
    · simp only [hg, if_true]
      have hv : isValidGridCoords s x y = true := by
        simp only [Bool.and_eq_true] at hg; exact hg.1
      simp [setCellType, hv, invalidatePathCache]
    · simp [hg] at h
  · intro h
    rw [placeTower] at h ⊢
    by_cases hg : (canPlaceTower s x y).1 = true
    · simp [hg, invalidatePathCache]
    · simp [hg] at h
  · intro h
    rw [removeTower] at h ⊢
    by_cases hg : (isValidGridCoords s x y && rawGetCell s.grid x y == 1) = true
    · simp [hg, invalidatePathCache]
    · simp [hg] at h
  · intro h
    have hv : isValidGridCoords ({ s with playerBase := some (x, y) } : MapState) x y
        = true := h
    simp [setPlayerBase, h, setCellType, hv, invalidatePathCache]
  · intro h
    have hv : isValidGridCoords
        ({ s with enemySpawns := s.enemySpawns ++ [(x, y)] } : MapState) x y = true := h
    simp [addEnemySpawn, h, setCellType, hv, invalidatePathCache]
  · intro sx sy ex ey hc
    rw [findPath_miss s sx sy ex ey (by rw [hc]; rfl)]

/-- Witness for C4: starting from a state whose cache holds one entry, a raw
in-bounds `setCellState` empties the cache, and the next cached-mode
`findPath` recomputes. -/
theorem claim_C4_witness :
    (findPath (initMap 2 2) 0 0 1 1 false).state.pathCache ≠ [] ∧
    (setCellType (findPath (initMap 2 2) 0 0 1 1 false).state 0 0 2).pathCache = [] ∧
    (findPath (setCellType (findPath (initMap 2 2) 0 0 1 1 false).state 0 0 2)
        0 0 1 1 false).computed = true :=
  ⟨by decide,
   (claim_C4_mutation_clears_cache (findPath (initMap 2 2) 0 0 1 1 false).state 0 0 2).1
     (by decide),
   (claim_C4_mutation_clears_cache
       (setCellType (findPath (initMap 2 2) 0 0 1 1 false).state 0 0 2) 0 0 2).2.2.2.2.2.2
     0 0 1 1
     ((claim_C4_mutation_clears_cache (findPath (initMap 2 2) 0 0 1 1 false).state 0 0 2).1
       (by decide))⟩

/-! ## Bounds and cell-write lemmas -/

theorem isValidGridCoords_iff (s : MapState) (x y : Int) :
    isValidGridCoords s x y = true ↔
      0 ≤ x ∧ x < (s.gridWidth : Int) ∧ 0 ≤ y ∧ y < (s.gridHeight : Int) := by
  simp [isValidGridCoords, and_assoc]

theorem valid_toNat_bounds (s : MapState) (x y : Int) (hwf : WFGrid s)
    (h : isValidGridCoords s x y = true) :
    y.toNat < s.grid.length ∧ x.toNat < (s.grid.getD y.toNat []).length := by
  obtain ⟨hx0, hx1, hy0, hy1⟩ := (isValidGridCoords_iff s x y).1 h
  obtain ⟨hlen, hrows⟩ := hwf
  have hyb : y.toNat < s.grid.length := by rw [hlen]; omega
  refine ⟨hyb, ?_⟩
  have hmem : s.grid.getD y.toNat [] ∈ s.grid := by
    rw [List.getD_eq_getElem s.grid [] hyb]
    exact List.getElem_mem hyb
  rw [hrows _ hmem]
  omega

theorem getCellType_setCellType_self (s : MapState) (x y : Int) (t : Nat)
    (hwf : WFGrid s) (hv : isValidGridCoords s x y = true) :
    getCellType (setCellType s x y t) x y = (t : Int) := by
  obtain ⟨hyb, hxb⟩ := valid_toNat_bounds s x y hwf hv
  rw [setCellType, if_pos hv]
  have hv2 : isValidGridCoords
      (invalidatePathCache { s with grid := rawSetCell s.grid x y t }) x y = true := hv
  rw [getCellType, if_pos hv2]
  have hg : rawGetCell
      (invalidatePathCache { s with grid := rawSetCell s.grid x y t }).grid x y = t :=
    rawGetCell_rawSetCell_self s.grid x y t hyb hxb
  rw [hg]

/-! ## Claim theorems: obstacle registration and concrete scenarios -/

/-- C8: `registerObstacle(x, y)` succeeds if and only if the coordinate is in
bounds and the cell is currently Empty; on success the cell becomes Obstacle,
on failure the state is unchanged (and the embedding is a total function:
no exception is raised either way). -/
theorem claim_C8_addObstacle_spec (s : MapState) (x y : Int) (hwf : WFGrid s) :
    ((addObstacle s x y).2 = true ↔
      (isValidGridCoords s x y = true ∧ getCellType s x y = 0)) ∧
    ((addObstacle s x y).2 = true → getCellType (addObstacle s x y).1 x y = 2) ∧
    ((addObstacle s x y).2 = false → (addObstacle s x y).1 = s) := by
  by_cases hg : (isValidGridCoords s x y && rawGetCell s.grid x y == 0) = true
  · have hg2 := hg
    simp only [Bool.and_eq_true, beq_iff_eq] at hg2
    obtain ⟨hv, hraw⟩ := hg2
    refine ⟨?_, ?_, ?_⟩
    · constructor
      · intro _
        exact ⟨hv, by rw [getCellType, if_pos hv, hraw]; rfl⟩
      · intro _; rw [addObstacle, if_pos hg]
    · intro _
      rw [addObstacle, if_pos hg]
      exact getCellType_setCellType_self s x y 2 hwf hv
    · intro h
      rw [addObstacle, if_pos hg] at h
      simp at h
  · refine ⟨?_, ?_, ?_⟩
    · constructor
      · intro h
        rw [addObstacle, if_neg hg] at h
        simp at h
      · intro ⟨hv, hc⟩
        exfalso
        apply hg
        have hraw : rawGetCell s.grid x y = 0 := by
          rw [getCellType, if_pos hv] at hc
          exact_mod_cast hc
        simp [hv, hraw]
    · intro h
      rw [addObstacle, if_neg hg] at h
      simp at h
    · intro _
      rw [addObstacle, if_neg hg]

/-- Witness for C8: adding an obstacle on the empty in-bounds cell (0,0) of a
2x2 map succeeds and paints the cell with the Obstacle state. -/
theorem claim_C8_witness :
    WFGrid (initMap 2 2) ∧
    (addObstacle (initMap 2 2) 0 0).2 = true ∧
    getCellType (addObstacle (initMap 2 2) 0 0).1 0 0 = 2 :=
  ⟨by decide, by decide,
   (claim_C8_addObstacle_spec (initMap 2 2) 0 0 (by decide)).2.1 (by decide)⟩

/-- C3: on the 3x3 grid with base (2,1), spawn (0,1) and obstacles at (1,0)
and (1,2) — so (1,1) is the only spawn-to-base corridor — `canPlaceTower(1,1)`
returns false, `placeTower(1,1)` returns false and the cell (1,1) still has
the Empty state afterwards. -/
theorem claim_C3_corridor_scenario :
    (canPlaceTower corridorState 1 1).1 = false ∧
    (placeTower corridorState 1 1).2 = false ∧
    getCellType (placeTower corridorState 1 1).1 1 1 = 0 := by decide

/-- C1 fails on the code (a code bug): a bypassed `findPath` does skip the
cache read but still writes its result into the cache (map.js lines 230 and
269 cache unconditionally), so `canPlaceTower`'s speculative simulation
pollutes the real cache.  Concretely: on the 3x3 base-and-spawn state the
cache is empty, `canPlaceTower(1,1)` succeeds but afterwards the cache holds
the length-5 detour computed around the simulated tower, the next cached-mode
`findPath(0,1,2,1)` serves that stale detour without recomputing, while a
fresh computation on the committed grid yields the length-3 direct path. -/
theorem claim_C1_bypassed_findPath_writes_cache :
    pollutionState.pathCache = [] ∧
    (canPlaceTower pollutionState 1 1).1 = true ∧
    (canPlaceTower pollutionState 1 1).2.pathCache =
      [((0, 1, 2, 1), some [(0, 1), (0, 0), (1, 0), (2, 0), (2, 1)])] ∧
    (findPath (canPlaceTower pollutionState 1 1).2 0 1 2 1 false).computed = false ∧
    (findPath (canPlaceTower pollutionState 1 1).2 0 1 2 1 false).path =
      some [(0, 1), (0, 0), (1, 0), (2, 0), (2, 1)] ∧
    (findPath pollutionState 0 1 2 1 false).path =
      some [(0, 1), (1, 1), (2, 1)] :=
  ⟨by decide, by decide, by decide, by decide, by decide, by decide⟩

/-! ## Base-cell counting for the at-most-one-base claim -/

theorem count3_set_le (l : List Nat) (i v : Nat) (hv : v ≠ 3) :
    (l.set i v).count 3 ≤ l.count 3 := by
  induction l generalizing i with
  | nil => simp
  | cons a t ih =>
    cases i with
    | zero =>
      simp only [List.set_cons_zero, List.count_cons, beq_iff_eq, hv, if_false]
      exact Nat.le_add_right _ _
    | succ k =>
      simp only [List.set_cons_succ, List.count_cons]
      exact Nat.add_le_add_right (ih k) _

theorem count3_set_le_succ (l : List Nat) (i v : Nat) :
    (l.set i v).count 3 ≤ l.count 3 + 1 := by
  induction l generalizing i with
  | nil => simp
  | cons a t ih =>
    cases i with
    | zero =>
      simp only [List.set_cons_zero, List.count_cons]
      split <;> split <;> omega
    | succ k =>
      simp only [List.set_cons_succ, List.count_cons]
      have := ih k
      omega

theorem baseSum_set_le (g : List (List Nat)) (i : Nat) (r : List Nat)
    (hr : r.count 3 ≤ (g.getD i []).count 3) :
    ((g.set i r).map (fun row => row.count 3)).sum
      ≤ (g.map (fun row => row.count 3)).sum := by
  induction g generalizing i with
  | nil => simp
  | cons a t ih =>
    cases i with
    | zero =>
      simp only [List.getD_cons_zero] at hr
      simp only [List.set_cons_zero, List.map_cons, List.sum_cons]
      exact Nat.add_le_add_right hr _
    | succ k =>
      simp only [List.getD_cons_succ] at hr
      simp only [List.set_cons_succ, List.map_cons, List.sum_cons]
      exact Nat.add_le_add_left (ih k hr) _

theorem baseSum_set_le_succ (g : List (List Nat)) (i : Nat) (r : List Nat)
    (hr : r.count 3 ≤ (g.getD i []).count 3 + 1) :
    ((g.set i r).map (fun row => row.count 3)).sum
      ≤ (g.map (fun row => row.count 3)).sum + 1 := by
  induction g generalizing i with
  | nil => simp
  | cons a t ih =>
    cases i with
    | zero =>
      simp only [List.getD_cons_zero] at hr
      simp only [List.set_cons_zero, List.map_cons, List.sum_cons]
      omega
    | succ k =>
      simp only [List.getD_cons_succ] at hr
      simp only [List.set_cons_succ, List.map_cons, List.sum_cons]
      have := ih k hr
      omega

theorem baseCount_setCellType_le (s : MapState) (x y : Int) (t : Nat)
    (ht : t ≠ 3) : baseCount (setCellType s x y t) ≤ baseCount s := by
  rw [setCellType]
  split
  · exact baseSum_set_le s.grid y.toNat _ (count3_set_le _ _ _ ht)
  · exact le_refl _

theorem baseCount_setCellType_le_succ (s : MapState) (x y : Int) (t : Nat) :
    baseCount (setCellType s x y t) ≤ baseCount s + 1 := by
  rw [setCellType]
  split
  · exact baseSum_set_le_succ s.grid y.toNat _ (count3_set_le_succ _ _ _)
  · exact Nat.le_succ _

theorem baseCount_applyOp_le (s : MapState) (op : MapOp)
    (hop : isBaseWrite op = false) : baseCount (applyOp s op) ≤ baseCount s := by
  cases op with
  | registerBase x y => simp [isBaseWrite] at hop
  | registerSpawn x y =>
    show baseCount (addEnemySpawn s x y).1 ≤ baseCount s
    rw [addEnemySpawn]; split
    · exact baseCount_setCellType_le _ x y 4 (by decide)
    · exact le_refl _
  | registerObstacle x y =>
    show baseCount (addObstacle s x y).1 ≤ baseCount s
    rw [addObstacle]; split
    · exact baseCount_setCellType_le s x y 2 (by decide)
    · exact le_refl _
  | placeTower x y =>
    show baseCount (MathInvasion.placeTower s x y).1 ≤ baseCount s
    have hgr : (canPlaceTower s x y).2.grid = s.grid :=
      (canPlaceTower_frame s x y).2.2.1
    have hbc : baseCount (canPlaceTower s x y).2 = baseCount s := by
      unfold baseCount; rw [hgr]
    by_cases hc : (canPlaceTower s x y).1 = true
    · have hred : (MathInvasion.placeTower s x y).1
          = invalidatePathCache (setCellType (canPlaceTower s x y).2 x y 1) := by
        rw [MathInvasion.placeTower]; simp [hc]
      rw [hred]
      calc baseCount (invalidatePathCache (setCellType (canPlaceTower s x y).2 x y 1))
          = baseCount (setCellType (canPlaceTower s x y).2 x y 1) := rfl
        _ ≤ baseCount (canPlaceTower s x y).2 :=
            baseCount_setCellType_le _ x y 1 (by decide)
        _ = baseCount s := hbc
    · have hred : (MathInvasion.placeTower s x y).1 = (canPlaceTower s x y).2 := by
        rw [MathInvasion.placeTower]; simp [hc]
      rw [hred]
      exact le_of_eq hbc
  | removeTower x y =>
    show baseCount (MathInvasion.removeTower s x y).1 ≤ baseCount s
    rw [MathInvasion.removeTower]; split
    · exact baseCount_setCellType_le s x y 0 (by decide)
    · exact le_refl _
  | setCellState x y t =>
    have ht : t ≠ 3 := by simpa [isBaseWrite] using hop
    exact baseCount_setCellType_le s x y t ht

theorem baseCount_applyOp_le_succ (s : MapState) (op : MapOp) :
    baseCount (applyOp s op) ≤ baseCount s + 1 := by
  cases op with
  | registerBase x y =>
    show baseCount (setPlayerBase s x y).1 ≤ baseCount s + 1
    rw [setPlayerBase]; split
    · exact baseCount_setCellType_le_succ _ x y 3
    · exact Nat.le_succ _
  | registerSpawn x y =>
    exact le_trans (baseCount_applyOp_le s (.registerSpawn x y) rfl) (Nat.le_succ _)
  | registerObstacle x y =>
    exact le_trans (baseCount_applyOp_le s (.registerObstacle x y) rfl) (Nat.le_succ _)
  | placeTower x y =>
    exact le_trans (baseCount_applyOp_le s (.placeTower x y) rfl) (Nat.le_succ _)
  | removeTower x y =>
    exact le_trans (baseCount_applyOp_le s (.removeTower x y) rfl) (Nat.le_succ _)
  | setCellState x y t =>
    exact baseCount_setCellType_le_succ s x y t

theorem baseCount_runOps_le (ops : List MapOp) :
    ∀ s : MapState, baseCount s + ops.countP isBaseWrite ≤ 1 →
      baseCount (runOps s ops) ≤ 1 := by
  induction ops with
  | nil =>
    intro s h
    simpa [runOps] using h
  | cons op rest ih =>
    intro s h
    show baseCount (runOps (applyOp s op) rest) ≤ 1
    rw [List.countP_cons] at h
    cases hbw : isBaseWrite op with
    | false =>
      apply ih
      have h1 := baseCount_applyOp_le s op hbw
      rw [hbw] at h
      simp at h
      omega
    | true =>
      apply ih
      have h1 := baseCount_applyOp_le_succ s op
      rw [hbw] at h
      simp at h
      omega

theorem baseCount_initMap (w h : Nat) : baseCount (initMap w h) = 0 := by
  simp [baseCount, initMap, List.map_replicate, List.count_replicate]

/-- C7 as stated is refuted by the counterexample below; this is the amended
claim: in every state reachable from a fresh grid by a sequence of public
mutation operations containing at most one Base-writing operation
(`registerBase` or a raw `setCellState` with the Base state), at most one
cell holds the Base state.  In general each `registerBase` paints a new Base
cell without clearing the previous base's cell, so repeated registrations
produce several Base cells. -/
theorem claim_C7_amended_at_most_one_base (w h : Nat) (ops : List MapOp)
    (hops : ops.countP isBaseWrite ≤ 1) :
    baseCount (runOps (initMap w h) ops) ≤ 1 := by
  apply baseCount_runOps_le
  rw [baseCount_initMap]
  omega

/-- Counterexample to C7 as stated: after the reachable operation sequence
`registerBase(0,0); registerBase(1,1)` on a 2x2 grid, two cells hold the
Base state, because `registerBase` never clears the previous base cell. -/
theorem claim_C7_counterexample :
    1 < baseCount (runOps (initMap 2 2)
      [MapOp.registerBase 0 0, MapOp.registerBase 1 1]) := by decide

/-- Witness for the amended C7: a sequence with a single `registerBase`
(followed by a spawn registration) leaves at most one Base cell. -/
theorem claim_C7_witness :
    List.countP isBaseWrite [MapOp.registerBase 0 0, MapOp.registerSpawn 1 1] ≤ 1 ∧
    baseCount (runOps (initMap 2 2)
      [MapOp.registerBase 0 0, MapOp.registerSpawn 1 1]) ≤ 1 :=
  ⟨by decide, claim_C7_amended_at_most_one_base 2 2 _ (by decide)⟩

/-! ## Manhattan distance and the monotone corridor -/

theorem manhattan_self (a : Coord) : manhattan a a = 0 := by
  simp [manhattan]

theorem manhattan_triangle (a b c : Coord) :
    manhattan a c ≤ manhattan a b + manhattan b c := by
  unfold manhattan
  omega

theorem manhattan_eq_zero {a b : Coord} (h : manhattan a b = 0) : a = b := by
  obtain ⟨a1, a2⟩ := a
  obtain ⟨b1, b2⟩ := b
  simp only [manhattan] at h
  have h1 : a1 = b1 := by omega
  have h2 : a2 = b2 := by omega
  rw [h1, h2]

theorem manhattan_nbr (x y : Int) (nb : Coord) (h : nb ∈ neighborsOf x y) :
    manhattan (x, y) nb = 1 := by
  simp only [neighborsOf, List.mem_cons, List.not_mem_nil, or_false] at h
  rcases h with h | h | h | h <;> subst h <;> unfold manhattan <;> omega

theorem manhattan_eq_dxdy (sx sy ex ey : Int) :
    manhattan (sx, sy) (ex, ey) = (ex - sx).natAbs + (ey - sy).natAbs := by
  unfold manhattan
  omega

theorem pmono_zero (sx sy ex ey : Int) : pmono sx sy ex ey 0 = (sx, sy) := by
  unfold pmono
  rw [Prod.mk.injEq]
  constructor <;> split_ifs <;> simp_all

theorem pmono_dist_end (sx sy ex ey : Int) (i : Nat)
    (h : i ≤ manhattan (sx, sy) (ex, ey)) :
    manhattan (pmono sx sy ex ey i) (ex, ey)
      = manhattan (sx, sy) (ex, ey) - i := by
  rw [manhattan_eq_dxdy] at h
  unfold pmono manhattan
  dsimp only
  split_ifs <;> omega

theorem pmono_inj (sx sy ex ey : Int) {i j : Nat}
    (hi : i ≤ manhattan (sx, sy) (ex, ey)) (hj : j ≤ manhattan (sx, sy) (ex, ey))
    (hne : i ≠ j) : pmono sx sy ex ey i ≠ pmono sx sy ex ey j := by
  intro he
  have h1 := pmono_dist_end sx sy ex ey i hi
  have h2 := pmono_dist_end sx sy ex ey j hj
  rw [he, h2] at h1
  omega

theorem pmono_succ_mem_neighbors (sx sy ex ey : Int) (i : Nat)
    (_hlt : i < manhattan (sx, sy) (ex, ey)) :
    pmono sx sy ex ey (i + 1) ∈
      neighborsOf (pmono sx sy ex ey i).1 (pmono sx sy ex ey i).2 := by
  unfold pmono neighborsOf
  simp only [List.mem_cons, List.not_mem_nil, or_false, Prod.mk.injEq]
  split_ifs <;> omega

theorem pmono_valid (s : MapState) (sx sy ex ey : Int) (i : Nat)
    (hs : isValidGridCoords s sx sy = true) (he : isValidGridCoords s ex ey = true)
    (hi : i ≤ manhattan (sx, sy) (ex, ey)) :
    isValidGridCoords s (pmono sx sy ex ey i).1 (pmono sx sy ex ey i).2 = true := by
  rw [isValidGridCoords_iff] at hs he ⊢
  rw [manhattan_eq_dxdy] at hi
  unfold pmono
  dsimp only
  split_ifs <;> omega

/-! ## Stable sort lemmas -/

theorem perm_insertByF (n : PNode) (l : List PNode) :
    List.Perm (insertByF n l) (n :: l) := by
  induction l with
  | nil => exact List.Perm.refl _
  | cons m ms ih =>
    unfold insertByF
    split
    · exact (ih.cons m).trans (List.Perm.swap _ _ _)
    · exact List.Perm.refl _

theorem perm_sortByF (l : List PNode) : List.Perm (sortByF l) l := by
  induction l with
  | nil => exact List.Perm.refl _
  | cons n ns ih => exact (perm_insertByF n (sortByF ns)).trans (ih.cons n)

theorem mem_sortByF {n : PNode} {l : List PNode} :
    n ∈ sortByF l ↔ n ∈ l :=
  (perm_sortByF l).mem_iff

theorem pairwise_insertByF (n : PNode) (l : List PNode)
    (h : l.Pairwise (fun a b => a.f ≤ b.f)) :
    (insertByF n l).Pairwise (fun a b => a.f ≤ b.f) := by
  induction l with
  | nil => simp [insertByF]
  | cons m ms ih =>
    rw [List.pairwise_cons] at h
    obtain ⟨hm, hms⟩ := h
    unfold insertByF
    split
    · next hlt =>
      rw [List.pairwise_cons]
      refine ⟨?_, ih hms⟩
      intro b hb
      rcases List.mem_cons.1 ((perm_insertByF n ms).mem_iff.1 hb) with rfl | hbm
      · exact Nat.le_of_lt hlt
      · exact hm b hbm
    · next hge =>
      have hnm : n.f ≤ m.f := Nat.le_of_not_lt hge
      rw [List.pairwise_cons]
      refine ⟨?_, List.pairwise_cons.2 ⟨hm, hms⟩⟩
      intro b hb
      rcases List.mem_cons.1 hb with rfl | hbm
      · exact hnm
      · exact le_trans hnm (hm b hbm)

theorem pairwise_sortByF (l : List PNode) :
    (sortByF l).Pairwise (fun a b => a.f ≤ b.f) := by
  induction l with
  | nil => simp [sortByF]
  | cons n ns ih => exact pairwise_insertByF n (sortByF ns) ih

/-! ## Neighbour-relaxation lemmas -/

theorem updateFirst_split {p : PNode → Bool} {l : List PNode} {n : PNode}
    (h : l.find? p = some n) :
    ∃ l1 l2, l = l1 ++ n :: l2 ∧ (∀ b ∈ l1, ¬p b = true) ∧
      ∀ upd : PNode → PNode, updateFirst p upd l = l1 ++ upd n :: l2 := by
  induction l with
  | nil => simp at h
  | cons m ms ih =>
    by_cases hm : p m = true
    · rw [List.find?_cons_of_pos _ hm] at h
      obtain rfl : m = n := by injection h
      refine ⟨[], ms, rfl, by simp, ?_⟩
      intro upd
      unfold updateFirst
      rw [if_pos hm]
      rfl
    · rw [List.find?_cons_of_neg _ hm] at h
      obtain ⟨l1, l2, hsplit, hl1, hupd⟩ := ih h
      refine ⟨m :: l1, l2, by rw [hsplit]; rfl, ?_, ?_⟩
      · intro b hb
        rcases List.mem_cons.1 hb with rfl | hb2
        · exact hm
        · exact hl1 b hb2
      · intro upd
        unfold updateFirst
        rw [if_neg hm, hupd upd]
        rfl

theorem nodup_append_singleton {α : Type _} {l : List α} {a : α}
    (h : l.Nodup) (ha : a ∉ l) : (l ++ [a]).Nodup := by
  induction l with
  | nil => simp
  | cons b bs ih =>
    rw [List.nodup_cons] at h
    simp only [List.cons_append, List.nodup_cons]
    constructor
    · intro hb
      rcases List.mem_append.1 hb with hb1 | hb2
      · exact h.1 hb1
      · simp at hb2
        subst hb2
        exact ha (List.mem_cons_self _ _)
    · exact ih h.2 fun hmem => ha (List.mem_cons_of_mem _ hmem)

theorem relaxNbr_mono (s : MapState) (ex ey : Int) (cur : PNode) (C : List Coord)
    (openl : List PNode) (nb : Coord) (c : Coord) (k : Nat)
    (h : ∃ n ∈ openl, n.pos = c ∧ n.g ≤ k) :
    ∃ n ∈ relaxNbr s ex ey cur C openl nb, n.pos = c ∧ n.g ≤ k := by
  obtain ⟨w, hw, hwp, hwg⟩ := h
  unfold relaxNbr
  split
  · exact ⟨w, hw, hwp, hwg⟩
  · split
    · exact ⟨w, List.mem_append_left _ hw, hwp, hwg⟩
    · rename_i n hf
      split
      · rename_i hlt
        obtain ⟨l1, l2, hsplit, hl1, hupd⟩ := updateFirst_split hf
        rw [hupd]
        subst hsplit
        rcases List.mem_append.1 hw with hw1 | hw2
        · exact ⟨w, List.mem_append_left _ hw1, hwp, hwg⟩
        · rcases List.mem_cons.1 hw2 with rfl | hw3
          · refine ⟨PNode.mk w.x w.y (some cur) (cur.g + 1) w.h,
              List.mem_append_right _ (List.mem_cons_self _ _), hwp, ?_⟩
            show cur.g + 1 ≤ k
            omega
          · exact ⟨w, List.mem_append_right _ (List.mem_cons_of_mem _ hw3), hwp, hwg⟩
      · exact ⟨w, hw, hwp, hwg⟩

theorem relaxNbr_target (s : MapState) (ex ey : Int) (cur : PNode) (C : List Coord)
    (openl : List PNode) (nb : Coord)
    (hpass : isCellPassable s nb.1 nb.2 true = true) (hncl : nb ∉ C) :
    ∃ n ∈ relaxNbr s ex ey cur C openl nb, n.pos = nb ∧ n.g ≤ cur.g + 1 := by
  unfold relaxNbr
  rw [if_neg (by simp [hpass, hncl])]
  split
  · refine ⟨PNode.mk nb.1 nb.2 (some cur) (cur.g + 1) (manhattan nb (ex, ey)),
      List.mem_append_right _ (List.mem_cons_self _ _), ?_, le_refl _⟩
    show (nb.1, nb.2) = nb
    rfl
  · rename_i n hf
    have hpos : n.pos = nb := by
      have hfs := List.find?_some hf
      rw [decide_eq_true_eq] at hfs
      show (n.x, n.y) = nb
      rw [hfs.1, hfs.2]
    split
    · rename_i hlt
      obtain ⟨l1, l2, hsplit, hl1, hupd⟩ := updateFirst_split hf
      rw [hupd]
      refine ⟨PNode.mk n.x n.y (some cur) (cur.g + 1) n.h,
        List.mem_append_right _ (List.mem_cons_self _ _), hpos, le_refl _⟩
    · rename_i hlt
      have hmem : n ∈ openl := List.mem_of_find?_eq_some hf
      exact ⟨n, hmem, hpos, by omega⟩

theorem relaxNbr_preserve (s : MapState) (sx sy ex ey : Int) (cur : PNode)
    (C : List Coord) (openl : List PNode) (nb : Coord)
    (hnb1 : manhattan cur.pos nb = 1)
    (hcg : manhattan (sx, sy) cur.pos ≤ cur.g)
    (hcl : cur.chain.length = cur.g + 1)
    (hA : ∀ n ∈ openl, isValidGridCoords s n.x n.y = true)
    (hB : (openl.map PNode.pos).Nodup)
    (hC : ∀ n ∈ openl, n.pos ∉ C)
    (hH : ∀ n ∈ openl, n.h = manhattan n.pos (ex, ey))
    (hG : ∀ n ∈ openl, manhattan (sx, sy) n.pos ≤ n.g)
    (hL : ∀ n ∈ openl, n.chain.length = n.g + 1) :
    (∀ n ∈ relaxNbr s ex ey cur C openl nb, isValidGridCoords s n.x n.y = true) ∧
    ((relaxNbr s ex ey cur C openl nb).map PNode.pos).Nodup ∧
    (∀ n ∈ relaxNbr s ex ey cur C openl nb, n.pos ∉ C) ∧
    (∀ n ∈ relaxNbr s ex ey cur C openl nb, n.h = manhattan n.pos (ex, ey)) ∧
    (∀ n ∈ relaxNbr s ex ey cur C openl nb, manhattan (sx, sy) n.pos ≤ n.g) ∧
    (∀ n ∈ relaxNbr s ex ey cur C openl nb, n.chain.length = n.g + 1) := by
  unfold relaxNbr
  split
  · exact ⟨hA, hB, hC, hH, hG, hL⟩
  · next hguard =>
    simp only [Bool.or_eq_true, Bool.not_eq_true', decide_eq_true_eq, not_or,
      Bool.not_eq_false] at hguard
    obtain ⟨hpass, hncl⟩ := hguard
    have htri : manhattan (sx, sy) nb ≤ cur.g + 1 := by
      have h3 := manhattan_triangle (sx, sy) cur.pos nb
      rw [hnb1] at h3
      omega
    split
    · rename_i hf
      have hnotin : nb ∉ openl.map PNode.pos := by
        intro hmem
        obtain ⟨m, hm, hmp⟩ := List.mem_map.1 hmem
        apply List.find?_eq_none.1 hf m hm
        rw [decide_eq_true_eq]
        exact ⟨congrArg Prod.fst hmp, congrArg Prod.snd hmp⟩
      refine ⟨?_, ?_, ?_, ?_, ?_, ?_⟩
      · intro n hn
        rcases List.mem_append.1 hn with h1 | h2
        · exact hA n h1
        · simp only [List.mem_singleton] at h2
          subst h2
          exact isCellPassable_valid s nb.1 nb.2 true hpass
      · rw [List.map_append]
        exact nodup_append_singleton hB hnotin
      · intro n hn
        rcases List.mem_append.1 hn with h1 | h2
        · exact hC n h1
        · simp only [List.mem_singleton] at h2
          subst h2
          exact hncl
      · intro n hn
        rcases List.mem_append.1 hn with h1 | h2
        · exact hH n h1
        · simp only [List.mem_singleton] at h2
          subst h2
          rfl
      · intro n hn
        rcases List.mem_append.1 hn with h1 | h2
        · exact hG n h1
        · simp only [List.mem_singleton] at h2
          subst h2
          exact htri
      · intro n hn
        rcases List.mem_append.1 hn with h1 | h2
        · exact hL n h1
        · simp only [List.mem_singleton] at h2
          subst h2
          simp [PNode.chain, PNode.g, List.length_append, hcl]
    · rename_i n hf
      have hpos : n.pos = nb := by
        have hfs := List.find?_some hf
        rw [decide_eq_true_eq] at hfs
        show (n.x, n.y) = nb
        rw [hfs.1, hfs.2]
      split
      · rename_i hlt
        obtain ⟨l1, l2, hsplit, hl1, hupd⟩ := updateFirst_split hf
        rw [hupd]
        have hnmem : n ∈ openl := List.mem_of_find?_eq_some hf
        have hposu : (PNode.mk n.x n.y (some cur) (cur.g + 1) n.h).pos = n.pos := rfl
        have hsub : ∀ b, b ∈ l1 ++ PNode.mk n.x n.y (some cur) (cur.g + 1) n.h :: l2 →
            b ∈ openl ∨ b = PNode.mk n.x n.y (some cur) (cur.g + 1) n.h := by
          intro b hb
          rcases List.mem_append.1 hb with hb1 | hb2
          · exact Or.inl (by rw [hsplit]; exact List.mem_append_left _ hb1)
          · rcases List.mem_cons.1 hb2 with rfl | hb3
            · exact Or.inr rfl
            · exact Or.inl (by
                rw [hsplit]
                exact List.mem_append_right _ (List.mem_cons_of_mem _ hb3))
        refine ⟨?_, ?_, ?_, ?_, ?_, ?_⟩
        · intro m hm
          rcases hsub m hm with hold | rfl
          · exact hA m hold
          · exact hA n hnmem
        · have hmapeq : (l1 ++ PNode.mk n.x n.y (some cur) (cur.g + 1) n.h :: l2).map
              PNode.pos = (l1 ++ n :: l2).map PNode.pos := by
            rw [List.map_append, List.map_append, List.map_cons, List.map_cons, hposu]
          rw [hmapeq, ← hsplit]
          exact hB
        · intro m hm
          rcases hsub m hm with hold | rfl
          · exact hC m hold
          · exact hC n hnmem
        · intro m hm
          rcases hsub m hm with hold | rfl
          · exact hH m hold
          · exact hH n hnmem
        · intro m hm
          rcases hsub m hm with hold | rfl
          · exact hG m hold
          · show manhattan (sx, sy) n.pos ≤ cur.g + 1
            rw [hpos]
            exact htri
        · intro m hm
          rcases hsub m hm with hold | rfl
          · exact hL m hold
          · simp [PNode.chain, PNode.g, List.length_append, hcl]
      · exact ⟨hA, hB, hC, hH, hG, hL⟩

theorem processNbrs_preserve (s : MapState) (sx sy ex ey : Int) (cur : PNode)
    (C : List Coord) (openl : List PNode)
    (hcg : manhattan (sx, sy) cur.pos ≤ cur.g)
    (hcl : cur.chain.length = cur.g + 1)
    (hA : ∀ n ∈ openl, isValidGridCoords s n.x n.y = true)
    (hB : (openl.map PNode.pos).Nodup)
    (hC : ∀ n ∈ openl, n.pos ∉ C)
    (hH : ∀ n ∈ openl, n.h = manhattan n.pos (ex, ey))
    (hG : ∀ n ∈ openl, manhattan (sx, sy) n.pos ≤ n.g)
    (hL : ∀ n ∈ openl, n.chain.length = n.g + 1) :
    (∀ n ∈ processNbrs s ex ey cur C openl, isValidGridCoords s n.x n.y = true) ∧
    ((processNbrs s ex ey cur C openl).map PNode.pos).Nodup ∧
    (∀ n ∈ processNbrs s ex ey cur C openl, n.pos ∉ C) ∧
    (∀ n ∈ processNbrs s ex ey cur C openl, n.h = manhattan n.pos (ex, ey)) ∧
    (∀ n ∈ processNbrs s ex ey cur C openl, manhattan (sx, sy) n.pos ≤ n.g) ∧
    (∀ n ∈ processNbrs s ex ey cur C openl, n.chain.length = n.g + 1) := by
  have m1 := manhattan_nbr cur.x cur.y (cur.x, cur.y - 1) (by simp [neighborsOf])
  have m2 := manhattan_nbr cur.x cur.y (cur.x, cur.y + 1) (by simp [neighborsOf])
  have m3 := manhattan_nbr cur.x cur.y (cur.x - 1, cur.y) (by simp [neighborsOf])
  have m4 := manhattan_nbr cur.x cur.y (cur.x + 1, cur.y) (by simp [neighborsOf])
  unfold processNbrs neighborsOf
  simp only [List.foldl_cons, List.foldl_nil]
  obtain ⟨a1, b1, c1, d1, e1, f1⟩ := relaxNbr_preserve s sx sy ex ey cur C openl
    (cur.x, cur.y - 1) m1 hcg hcl hA hB hC hH hG hL
  obtain ⟨a2, b2, c2, d2, e2, f2⟩ := relaxNbr_preserve s sx sy ex ey cur C _
    (cur.x, cur.y + 1) m2 hcg hcl a1 b1 c1 d1 e1 f1
  obtain ⟨a3, b3, c3, d3, e3, f3⟩ := relaxNbr_preserve s sx sy ex ey cur C _
    (cur.x - 1, cur.y) m3 hcg hcl a2 b2 c2 d2 e2 f2
  exact relaxNbr_preserve s sx sy ex ey cur C _
    (cur.x + 1, cur.y) m4 hcg hcl a3 b3 c3 d3 e3 f3

theorem processNbrs_mono (s : MapState) (ex ey : Int) (cur : PNode) (C : List Coord)
    (openl : List PNode) (c : Coord) (k : Nat)
    (h : ∃ n ∈ openl, n.pos = c ∧ n.g ≤ k) :
    ∃ n ∈ processNbrs s ex ey cur C openl, n.pos = c ∧ n.g ≤ k := by
  unfold processNbrs neighborsOf
  simp only [List.foldl_cons, List.foldl_nil]
  apply relaxNbr_mono
  apply relaxNbr_mono
  apply relaxNbr_mono
  apply relaxNbr_mono
  exact h

theorem processNbrs_target (s : MapState) (ex ey : Int) (cur : PNode)
    (C : List Coord) (openl : List PNode) (nbT : Coord)
    (hmem : nbT ∈ neighborsOf cur.x cur.y)
    (hpass : isCellPassable s nbT.1 nbT.2 true = true) (hncl : nbT ∉ C) :
    ∃ n ∈ processNbrs s ex ey cur C openl, n.pos = nbT ∧ n.g ≤ cur.g + 1 := by
  unfold processNbrs
  simp only [neighborsOf, List.mem_cons, List.not_mem_nil, or_false] at hmem
  simp only [neighborsOf, List.foldl_cons, List.foldl_nil]
  rcases hmem with rfl | rfl | rfl | rfl
  · apply relaxNbr_mono
    apply relaxNbr_mono
    apply relaxNbr_mono
    exact relaxNbr_target _ _ _ _ _ _ _ hpass hncl
  · apply relaxNbr_mono
    apply relaxNbr_mono
    exact relaxNbr_target _ _ _ _ _ _ _ hpass hncl
  · apply relaxNbr_mono
    exact relaxNbr_target _ _ _ _ _ _ _ hpass hncl
  · exact relaxNbr_target _ _ _ _ _ _ _ hpass hncl

theorem closed_length_le (s : MapState) (closed : List Coord)
    (hnd : closed.Nodup) (hib : ∀ c ∈ closed, isValidGridCoords s c.1 c.2 = true) :
    closed.length ≤ s.gridWidth * s.gridHeight := by
  classical
  have hinj : ∀ c1 ∈ closed, ∀ c2 ∈ closed,
      (fun c : Coord => (c.1.toNat, c.2.toNat)) c1
        = (fun c : Coord => (c.1.toNat, c.2.toNat)) c2 → c1 = c2 := by
    intro c1 h1 c2 h2 he
    obtain ⟨a1, a2, a3, a4⟩ := (isValidGridCoords_iff s c1.1 c1.2).1 (hib c1 h1)
    obtain ⟨b1, b2, b3, b4⟩ := (isValidGridCoords_iff s c2.1 c2.2).1 (hib c2 h2)
    simp only [Prod.mk.injEq] at he
    obtain ⟨he1, he2⟩ := he
    obtain ⟨x1, y1⟩ := c1
    obtain ⟨x2, y2⟩ := c2
    rw [Prod.mk.injEq]
    dsimp only at a1 a2 a3 a4 b1 b2 b3 b4 he1 he2
    constructor <;> omega
  have hnd2 : (closed.map (fun c : Coord => (c.1.toNat, c.2.toNat))).Nodup :=
    List.Nodup.map_on hinj hnd
  have hsub : (closed.map (fun c : Coord => (c.1.toNat, c.2.toNat))).toFinset ⊆
      Finset.range s.gridWidth ×ˢ Finset.range s.gridHeight := by
    intro p hp
    rw [List.mem_toFinset] at hp
    obtain ⟨c, hc, hcp⟩ := List.mem_map.1 hp
    obtain ⟨a1, a2, a3, a4⟩ := (isValidGridCoords_iff s c.1 c.2).1 (hib c hc)
    subst hcp
    rw [Finset.mem_product, Finset.mem_range, Finset.mem_range]
    constructor <;> dsimp only <;> omega
  calc closed.length
      = (closed.map (fun c : Coord => (c.1.toNat, c.2.toNat))).length := by
        rw [List.length_map]
    _ = (closed.map (fun c : Coord => (c.1.toNat, c.2.toNat))).toFinset.card :=
        (List.toFinset_card_of_nodup hnd2).symm
    _ ≤ (Finset.range s.gridWidth ×ˢ Finset.range s.gridHeight).card :=
        Finset.card_le_card hsub
    _ = s.gridWidth * s.gridHeight := by
        rw [Finset.card_product, Finset.card_range, Finset.card_range]

theorem isCellPassable_of_empty (s : MapState)
    (hempty : ∀ x y : Int, isValidGridCoords s x y = true → rawGetCell s.grid x y = 0)
    (x y : Int) (hv : isValidGridCoords s x y = true) :
    isCellPassable s x y true = true := by
  unfold isCellPassable
  rw [hv]
  simp [hempty x y hv]

theorem astarLoop_succ (s : MapState) (ex ey : Int) (fuel : Nat)
    (openl : List PNode) (closed : List Coord) (cur : PNode) (rest : List PNode)
    (hsort : sortByF openl = cur :: rest) :
    astarLoop s ex ey (fuel + 1) openl closed
      = if cur.x = ex ∧ cur.y = ey then some cur.chain
        else astarLoop s ex ey fuel
          (processNbrs s ex ey cur ((cur.x, cur.y) :: closed) rest)
          ((cur.x, cur.y) :: closed) := by
  rw [astarLoop, hsort]

theorem astarLoop_empty (s : MapState) (sx sy ex ey : Int)
    (hempty : ∀ x y : Int, isValidGridCoords s x y = true → rawGetCell s.grid x y = 0)
    (hs : isValidGridCoords s sx sy = true)
    (he : isValidGridCoords s ex ey = true) :
    ∀ (fuel : Nat) (openl : List PNode) (closed : List Coord),
      AInv s sx sy ex ey fuel openl closed →
      ∃ p, astarLoop s ex ey fuel openl closed = some p ∧
        p.length = manhattan (sx, sy) (ex, ey) + 1 := by
  intro fuel
  induction fuel with
  | zero =>
    intro openl closed hinv
    obtain ⟨_, _, _, h4, h5, _, _, _, _, h10⟩ := hinv
    exfalso
    have := closed_length_le s closed h4 h5
    omega
  | succ fuel ih =>
    intro openl closed hinv
    obtain ⟨h1, h2, h3, h4, h5, h6, h7, h8, hwit, h10⟩ := hinv
    obtain ⟨i, hiD, ⟨w, hw_mem, hw_pos, hw_g⟩, hcfree⟩ := hwit
    have hw_sort : w ∈ sortByF openl := mem_sortByF.2 hw_mem
    cases hsort : sortByF openl with
    | nil =>
      rw [hsort] at hw_sort
      simp at hw_sort
    | cons cur rest =>
      rw [hsort] at hw_sort
      have hcur_open : cur ∈ openl :=
        mem_sortByF.1 (hsort ▸ List.mem_cons_self cur rest)
      have hrest_sub : ∀ n ∈ rest, n ∈ openl := fun n hn =>
        mem_sortByF.1 (hsort ▸ List.mem_cons_of_mem cur hn)
      have hpw := pairwise_sortByF openl
      rw [hsort, List.pairwise_cons] at hpw
      obtain ⟨hcur_min, _⟩ := hpw
      rw [astarLoop_succ s ex ey fuel openl closed cur rest hsort]
      have hcur_h : cur.h = manhattan cur.pos (ex, ey) := h6 cur hcur_open
      have hcur_g : manhattan (sx, sy) cur.pos ≤ cur.g := h7 cur hcur_open
      have hcur_chain : cur.chain.length = cur.g + 1 := h8 cur hcur_open
      have hwf : w = cur ∨ w ∈ rest := List.mem_cons.1 hw_sort
      have hw_hval : w.h = manhattan (sx, sy) (ex, ey) - i := by
        rw [h6 w hw_mem, hw_pos, pmono_dist_end sx sy ex ey i hiD]
      have hcurf_le : cur.g + cur.h ≤ manhattan (sx, sy) (ex, ey) := by
        rcases hwf with rfl | hwr
        · rw [hw_hval]
          omega
        · have hmin := hcur_min w hwr
          unfold PNode.f at hmin
          rw [hw_hval] at hmin
          omega
      by_cases hgoal : cur.x = ex ∧ cur.y = ey
      · rw [if_pos hgoal]
        refine ⟨cur.chain, rfl, ?_⟩
        have hcpos : cur.pos = (ex, ey) := by
          show (cur.x, cur.y) = (ex, ey)
          rw [hgoal.1, hgoal.2]
        have hch0 : cur.h = 0 := by rw [hcur_h, hcpos, manhattan_self]
        rw [hcpos] at hcur_g
        omega
      · rw [if_neg hgoal]
        have h2sort : ((cur :: rest).map PNode.pos).Nodup := by
          have hperm : List.Perm ((sortByF openl).map PNode.pos)
              (openl.map PNode.pos) := (perm_sortByF openl).map PNode.pos
          rw [hsort] at hperm
          exact hperm.nodup_iff.2 h2
        rw [List.map_cons, List.nodup_cons] at h2sort
        obtain ⟨hcur_notin, h2rest⟩ := h2sort
        have h3rest : ∀ n ∈ rest, n.pos ∉ (cur.x, cur.y) :: closed := by
          intro n hn hmem
          rcases List.mem_cons.1 hmem with heq | hmem2
          · apply hcur_notin
            have hpe : cur.pos = n.pos := heq.symm
            rw [hpe]
            exact List.mem_map_of_mem PNode.pos hn
          · exact h3 n (hrest_sub n hn) hmem2
        obtain ⟨pA, pB, pC, pD, pE, pF⟩ := processNbrs_preserve s sx sy ex ey cur
          ((cur.x, cur.y) :: closed) rest hcur_g hcur_chain
          (fun n hn => h1 n (hrest_sub n hn)) h2rest h3rest
          (fun n hn => h6 n (hrest_sub n hn))
          (fun n hn => h7 n (hrest_sub n hn))
          (fun n hn => h8 n (hrest_sub n hn))
        have h4n : ((cur.x, cur.y) :: closed).Nodup := by
          rw [List.nodup_cons]
          exact ⟨h3 cur hcur_open, h4⟩
        have h5n : ∀ c ∈ (cur.x, cur.y) :: closed,
            isValidGridCoords s c.1 c.2 = true := by
          intro c hc
          rcases List.mem_cons.1 hc with rfl | hc2
          · exact h1 cur hcur_open
          · exact h5 c hc2
        have hwit2 : ∃ i2 ≤ manhattan (sx, sy) (ex, ey),
            (∃ n ∈ processNbrs s ex ey cur ((cur.x, cur.y) :: closed) rest,
              n.pos = pmono sx sy ex ey i2 ∧ n.g ≤ i2) ∧
            ∀ j2, i2 < j2 → j2 ≤ manhattan (sx, sy) (ex, ey) →
              pmono sx sy ex ey j2 ∉ (cur.x, cur.y) :: closed := by
          by_cases honpath : ∃ j, j ≤ manhattan (sx, sy) (ex, ey)
              ∧ cur.pos = pmono sx sy ex ey j
          · obtain ⟨j, hjD, hj⟩ := honpath
            have hjne : j ≠ manhattan (sx, sy) (ex, ey) := by
              intro hje
              have hdist := pmono_dist_end sx sy ex ey
                (manhattan (sx, sy) (ex, ey)) (le_refl _)
              have hlast : pmono sx sy ex ey (manhattan (sx, sy) (ex, ey))
                  = (ex, ey) := manhattan_eq_zero (by rw [hdist]; omega)
              rw [hje, hlast] at hj
              exact hgoal ⟨congrArg Prod.fst hj, congrArg Prod.snd hj⟩
            by_cases hji : i ≤ j
            · have hjltD : j < manhattan (sx, sy) (ex, ey) := by omega
              have hch : cur.h = manhattan (sx, sy) (ex, ey) - j := by
                rw [hcur_h, hj, pmono_dist_end sx sy ex ey j hjD]
              have hcg_le : cur.g ≤ j := by omega
              have hadj := pmono_succ_mem_neighbors sx sy ex ey j hjltD
              rw [← hj] at hadj
              have hval_nb : isValidGridCoords s (pmono sx sy ex ey (j + 1)).1
                  (pmono sx sy ex ey (j + 1)).2 = true :=
                pmono_valid s sx sy ex ey (j + 1) hs he (by omega)
              have hpass_nb : isCellPassable s (pmono sx sy ex ey (j + 1)).1
                  (pmono sx sy ex ey (j + 1)).2 true = true :=
                isCellPassable_of_empty s hempty _ _ hval_nb
              have hncl_nb : pmono sx sy ex ey (j + 1) ∉ (cur.x, cur.y) :: closed := by
                intro hmem
                rcases List.mem_cons.1 hmem with heq | hmem2
                · apply @pmono_inj sx sy ex ey (j + 1) j (by omega) hjD (by omega)
                  rw [heq]
                  exact hj
                · exact hcfree (j + 1) (by omega) (by omega) hmem2
              obtain ⟨nT, hnT_mem, hnT_pos, hnT_g⟩ := processNbrs_target s ex ey cur
                ((cur.x, cur.y) :: closed) rest (pmono sx sy ex ey (j + 1)) hadj
                hpass_nb hncl_nb
              refine ⟨j + 1, by omega, ⟨nT, hnT_mem, hnT_pos, by omega⟩, ?_⟩
              intro j2 hj2a hj2b hj2mem
              rcases List.mem_cons.1 hj2mem with heq | hmem2
              · apply @pmono_inj sx sy ex ey j2 j hj2b hjD (by omega)
                rw [heq]
                exact hj
              · exact hcfree j2 (by omega) hj2b hmem2
            · have hwr : w ∈ rest := by
                rcases hwf with rfl | hwr
                · exfalso
                  apply @pmono_inj sx sy ex ey i j hiD hjD (by omega)
                  rw [← hw_pos]
                  exact hj
                · exact hwr
              obtain ⟨nT, hnT_mem, hnT_pos, hnT_g⟩ := processNbrs_mono s ex ey cur
                ((cur.x, cur.y) :: closed) rest (pmono sx sy ex ey i) i
                ⟨w, hwr, hw_pos, hw_g⟩
              refine ⟨i, hiD, ⟨nT, hnT_mem, hnT_pos, hnT_g⟩, ?_⟩
              intro j2 hj2a hj2b hj2mem
              rcases List.mem_cons.1 hj2mem with heq | hmem2
              · apply @pmono_inj sx sy ex ey j2 j hj2b hjD (by omega)
                rw [heq]
                exact hj
              · exact hcfree j2 hj2a hj2b hmem2
          · have hwr : w ∈ rest := by
              rcases hwf with rfl | hwr
              · exact absurd ⟨i, hiD, hw_pos⟩ honpath
              · exact hwr
            obtain ⟨nT, hnT_mem, hnT_pos, hnT_g⟩ := processNbrs_mono s ex ey cur
              ((cur.x, cur.y) :: closed) rest (pmono sx sy ex ey i) i
              ⟨w, hwr, hw_pos, hw_g⟩
            refine ⟨i, hiD, ⟨nT, hnT_mem, hnT_pos, hnT_g⟩, ?_⟩
            intro j2 hj2a hj2b hj2mem
            rcases List.mem_cons.1 hj2mem with heq | hmem2
            · exact absurd ⟨j2, hj2b, heq.symm⟩ honpath
            · exact hcfree j2 hj2a hj2b hmem2
        apply ih
        refine ⟨pA, pB, pC, h4n, h5n, pD, pE, pF, hwit2, ?_⟩
        rw [List.length_cons]
        omega

theorem astar_empty (s : MapState) (sx sy ex ey : Int)
    (hempty : ∀ x y : Int, isValidGridCoords s x y = true → rawGetCell s.grid x y = 0)
    (hs : isValidGridCoords s sx sy = true)
    (he : isValidGridCoords s ex ey = true) :
    ∃ p, astar s sx sy ex ey = some p ∧
      p.length = manhattan (sx, sy) (ex, ey) + 1 := by
  apply astarLoop_empty s sx sy ex ey hempty hs he
  refine ⟨?_, ?_, ?_, ?_, ?_, ?_, ?_, ?_, ?_, ?_⟩
  · intro n hn
    simp only [List.mem_singleton] at hn
    subst hn
    exact hs
  · simp
  · intro n hn
    simp only [List.mem_singleton] at hn
    subst hn
    simp
  · exact List.nodup_nil
  · intro c hc
    simp at hc
  · intro n hn
    simp only [List.mem_singleton] at hn
    subst hn
    rfl
  · intro n hn
    simp only [List.mem_singleton] at hn
    subst hn
    show manhattan (sx, sy) (sx, sy) ≤ 0
    rw [manhattan_self]
  · intro n hn
    simp only [List.mem_singleton] at hn
    subst hn
    rfl
  · refine ⟨0, Nat.zero_le _,
      ⟨PNode.mk sx sy none 0 (manhattan (sx, sy) (ex, ey)),
        List.mem_singleton_self _, ?_, le_refl 0⟩, ?_⟩
    · show (sx, sy) = pmono sx sy ex ey 0
      exact (pmono_zero sx sy ex ey).symm
    · intro j _ _ hm
      simp at hm
  · simp

theorem getD_replicate {α : Type _} (n i : Nat) (a d : α) :
    (List.replicate n a).getD i d = if i < n then a else d := by
  induction n generalizing i with
  | zero => simp [List.replicate]
  | succ k ihn =>
    cases i with
    | zero => simp [List.replicate]
    | succ m =>
      simp only [List.replicate, List.getD_cons_succ]
      rw [ihn m]
      simp [Nat.succ_lt_succ_iff]

theorem initMap_empty (w h : Nat) : ∀ x y : Int,
    isValidGridCoords (initMap w h) x y = true →
    rawGetCell (initMap w h).grid x y = 0 := by
  intro x y _
  show ((List.replicate h (List.replicate w 0)).getD y.toNat []).getD x.toNat 0 = 0
  rw [getD_replicate]
  split
  · rw [getD_replicate]
    split <;> rfl
  · simp

/-- C5: on a grid whose cells are all Empty, `findPath` between any two
in-bounds coordinates (computed fresh, i.e. with no pre-existing cache entry
for the pair) returns a path whose length is one more than the Manhattan
distance between them; in particular on a 5x1 empty grid
`findPath(0,0,4,0)` returns exactly [(0,0),(1,0),(2,0),(3,0),(4,0)]. -/
theorem claim_C5_empty_grid_manhattan :
    (∀ (s : MapState) (sx sy ex ey : Int),
      (∀ x y : Int, isValidGridCoords s x y = true → rawGetCell s.grid x y = 0) →
      isValidGridCoords s sx sy = true →
      isValidGridCoords s ex ey = true →
      cacheGet s.pathCache (sx, sy, ex, ey) = none →
      ∃ p, (findPath s sx sy ex ey false).path = some p ∧
        p.length = 1 + manhattan (sx, sy) (ex, ey)) ∧
    (findPath (initMap 5 1) 0 0 4 0 false).path
      = some [(0, 0), (1, 0), (2, 0), (3, 0), (4, 0)] := by
  constructor
  · intro s sx sy ex ey hempty hs he hc
    obtain ⟨p, hp, hlen⟩ := astar_empty s sx sy ex ey hempty hs he
    rw [findPath_miss s sx sy ex ey hc]
    exact ⟨p, hp, by omega⟩
  · decide

/-- Witness for C5: on an empty 3x3 grid the fresh path from (0,0) to (2,1)
has length 1 + Manhattan distance = 4. -/
theorem claim_C5_witness :
    isValidGridCoords (initMap 3 3) 0 0 = true ∧
    Option.map List.length (findPath (initMap 3 3) 0 0 2 1 false).path
      = some (1 + manhattan (0, 0) (2, 1)) := by
  refine ⟨by decide, ?_⟩
  obtain ⟨p, hp, hlen⟩ := claim_C5_empty_grid_manhattan.1 (initMap 3 3) 0 0 2 1
    (initMap_empty 3 3) (by decide) (by decide) rfl
  rw [hp]
  simp [hlen]

end MathInvasion
